import Mathlib

/-!
Verification development for the PhantomVault IPC client
(`scripts/test-ipc-client.py`).

The script exchanges length-prefixed JSON messages with a vault service over
a Unix-domain stream socket.  This file gives a shallow embedding of the
protocol core:

* the framing layer — a 4-byte length header followed by exactly that many
  payload bytes, read back with a single `recv(4)` for the header and a
  chunk-tolerant accumulation loop for the body (lines 59-64 and 80-98 of
  the script);
* the envelope codec — `json.dumps` / `json.loads` of the four-field
  message dictionary, transported as UTF-8 bytes (lines 47-57 and 100-104);
* the session operations `send_message`, `receive_message`, `disconnect`
  of class `PhantomVaultIPCClient`.

Bytes are modelled as `Nat` (meaningful values are below 256), a stream as
the list of byte chunks that successive `recv` calls deliver, and the
socket's send side as a schedule saying how many bytes each `send` call
accepts.  All definitions are executable so concrete runs can be settled
by `decide`.
-/

namespace PhantomVault

/-- A byte on the wire. -/
abbrev Byte := Nat

/-- The read side of a socket: the list of byte chunks that successive
`recv` calls deliver.  An exhausted list (or an empty chunk) models the
peer having closed the stream: `recv` then returns no bytes, which is
exactly Python's `recv` returning `b''`. -/
abbrev ByteStream := List (List Byte)

/-- Model of `socket.recv n`: return at most `n` bytes from the front of
the current chunk; bytes beyond `n` stay buffered for the next call.  An
empty stream yields the empty read that signals end of stream. -/
def recv (n : Nat) : ByteStream → List Byte × ByteStream
  | [] => ([], [])
  | c :: rest =>
    let left := c.drop n
    (c.take n, if left.isEmpty then rest else left :: rest)

/-- Model of `struct.pack('I', n)` on a little-endian host: the four bytes
of `n` in little-endian order.  (The script uses the host's native order;
the reference platform is little-endian x86-64.) -/
def packLE4 (n : Nat) : List Byte :=
  [n % 256, n / 256 % 256, n / 256 ^ 2 % 256, n / 256 ^ 3 % 256]

/-- Model of `struct.unpack('I', bs)[0]` for a 4-byte buffer. -/
def unpackLE4 (bs : List Byte) : Nat :=
  match bs with
  | [b0, b1, b2, b3] => b0 + 256 * b1 + 256 ^ 2 * b2 + 256 ^ 3 * b3
  | _ => 0

/-- Outcome of the frame-decoding half of `receive_message`.  The three
constructors are the script's three distinguishable exits: a successfully
collected body, the header check `len(length_data) != 4` failing (the
spec's `FramingError`), and the body check `len(message_data) !=
message_length` failing, which reports bytes obtained versus expected
(the spec's `IncompleteMessageError`). -/
inductive RecvResult where
  | ok (payload : List Byte)
  | framingError
  | incompleteMessage (got expected : Nat)
deriving DecidableEq, Repr

/-- The body-accumulation loop of `receive_message` (lines 89-94): while
fewer than `need` bytes are gathered, `recv` the remainder; an empty read
(closed stream) breaks out.  `fuel` bounds the iterations; since every
non-final iteration gathers at least one byte, `fuel = need` is always
enough on a live stream. -/
def recvBody (fuel need : Nat) (acc : List Byte) (s : ByteStream) :
    List Byte × ByteStream :=
  match fuel with
  | 0 => (acc, s)
  | fuel + 1 =>
    if acc.length < need then
      let r := recv (need - acc.length) s
      if r.1.isEmpty then (acc, r.2)
      else recvBody fuel need (acc ++ r.1) r.2
    else (acc, s)

/-- The framing half of `send_message` (lines 59-64): a 4-byte length
header followed by the payload bytes. -/
def frameEncode (payload : List Byte) : List Byte :=
  packLE4 payload.length ++ payload

/-- The framing half of `receive_message` (lines 82-98): one `recv(4)` for
the header — rejected unless it returns exactly 4 bytes — then the body
loop, rejected unless it gathered exactly the declared count. -/
def frameDecode (s : ByteStream) : RecvResult × ByteStream :=
  let h := recv 4 s
  if h.1.length ≠ 4 then (RecvResult.framingError, h.2)
  else
    let len := unpackLE4 h.1
    let b := recvBody len len [] h.2
    if b.1.length ≠ len then (RecvResult.incompleteMessage b.1.length len, b.2)
    else (RecvResult.ok b.1, b.2)

/-- A live stream delivers no empty chunks: Python's `recv` returns an
empty byte string only when the peer has closed the connection. -/
def LiveStream (s : ByteStream) : Prop := ∀ c ∈ s, c ≠ []

instance (s : ByteStream) : Decidable (LiveStream s) := by
  unfold LiveStream; infer_instance

/-! Envelope codec.  `send_message` serializes the message dictionary with
`json.dumps` (default options: ASCII-only output, separators a comma plus
space and a colon plus space, keys in insertion order `type`, `payload`,
`request_id`, `client_id`) and encodes the text as UTF-8.
`receive_message` decodes the bytes as UTF-8 and parses them with
`json.loads`, then reads the mandatory `type` and `payload` entries. -/

/-- The structured message carried inside a frame: the four-field JSON
dictionary built by `send_message` (lines 47-52). -/
structure Envelope where
  type : String
  payload : String
  request_id : String
  client_id : String
deriving DecidableEq, Repr

/-- Lowercase hexadecimal digit, as used by `json.dumps` in its
backslash-u escapes. -/
def hexDigitChar (n : Nat) : Char :=
  if n < 10 then Char.ofNat (48 + n) else Char.ofNat (87 + n)

/-- Four lowercase hexadecimal digits of a value below 2^16. -/
def hex4 (n : Nat) : List Char :=
  [hexDigitChar (n / 4096 % 16), hexDigitChar (n / 256 % 16),
   hexDigitChar (n / 16 % 16), hexDigitChar (n % 16)]

/-- How `json.dumps` (with its default ASCII-only output) renders one
character of a string value: the two-character escapes for the quote,
backslash and the five named control characters; backslash-u escapes for
the remaining control characters and for everything outside printable
ASCII, with a surrogate pair above 2^16; printable ASCII stands for
itself. -/
def jsonEscapeChar (c : Char) : List Char :=
  if c = '"' then ['\\', '"']
  else if c = '\\' then ['\\', '\\']
  else if c = Char.ofNat 8 then ['\\', 'b']
  else if c = Char.ofNat 9 then ['\\', 't']
  else if c = Char.ofNat 10 then ['\\', 'n']
  else if c = Char.ofNat 12 then ['\\', 'f']
  else if c = Char.ofNat 13 then ['\\', 'r']
  else if c.toNat < 32 ∨ 127 ≤ c.toNat then
    if c.toNat < 65536 then '\\' :: 'u' :: hex4 c.toNat
    else
      ('\\' :: 'u' :: hex4 (55296 + (c.toNat - 65536) / 1024))
        ++ ('\\' :: 'u' :: hex4 (56320 + (c.toNat - 65536) % 1024))
  else [c]

/-- A JSON string literal: quote, escaped characters, quote. -/
def jsonQuote (s : String) : List Char :=
  '"' :: (s.data.flatMap jsonEscapeChar ++ ['"'])

/-- One object member as `json.dumps` lays it out — quoted key, colon,
space, quoted value — followed by the rest of the text. -/
def memberChars (k v : String) (rest : List Char) : List Char :=
  jsonQuote k ++ (':' :: ' ' :: (jsonQuote v ++ rest))

/-- The exact text `json.dumps` produces for the message dictionary of
`send_message`: keys in insertion order, a comma-space between members
and a colon-space between key and value. -/
def envelopeToJson (e : Envelope) : List Char :=
  '\x7b' :: memberChars "type" e.type (',' :: ' ' ::
    memberChars "payload" e.payload (',' :: ' ' ::
      memberChars "request_id" e.request_id (',' :: ' ' ::
        memberChars "client_id" e.client_id ['\x7d'])))

/-- UTF-8 encoding of one character (`str.encode('utf-8')`). -/
def utf8EncodeChar (c : Char) : List Byte :=
  if c.toNat < 128 then [c.toNat]
  else if c.toNat < 2048 then [192 + c.toNat / 64, 128 + c.toNat % 64]
  else if c.toNat < 65536 then
    [224 + c.toNat / 4096, 128 + c.toNat / 64 % 64, 128 + c.toNat % 64]
  else
    [240 + c.toNat / 262144, 128 + c.toNat / 4096 % 64,
     128 + c.toNat / 64 % 64, 128 + c.toNat % 64]

/-- UTF-8 encoding of a character sequence. -/
def utf8Encode (cs : List Char) : List Byte := cs.flatMap utf8EncodeChar

/-- Whether a byte is a UTF-8 continuation byte. -/
def isCont (b : Byte) : Bool := 128 ≤ b && b < 192

/-- Continuation of a two-byte UTF-8 sequence whose lead byte is `b`. -/
def utf8Step2 (b : Byte) (rest : List Byte) : Option (Char × List Byte) :=
  match rest with
  | b1 :: rest1 =>
    if isCont b1 then some (Char.ofNat ((b - 192) * 64 + (b1 - 128)), rest1)
    else none
  | [] => none

/-- Continuation of a three-byte UTF-8 sequence whose lead byte is `b`:
the decoded value must be at least 2048 (no overlong forms) and must not
be a surrogate code point. -/
def utf8Step3 (b : Byte) (rest : List Byte) : Option (Char × List Byte) :=
  match rest with
  | b1 :: b2 :: rest2 =>
    if isCont b1 ∧ isCont b2
        ∧ 2048 ≤ (b - 224) * 4096 + (b1 - 128) * 64 + (b2 - 128)
        ∧ ((b - 224) * 4096 + (b1 - 128) * 64 + (b2 - 128) < 55296
          ∨ 57344 ≤ (b - 224) * 4096 + (b1 - 128) * 64 + (b2 - 128)) then
      some (Char.ofNat ((b - 224) * 4096 + (b1 - 128) * 64 + (b2 - 128)), rest2)
    else none
  | _ => none

/-- Continuation of a four-byte UTF-8 sequence whose lead byte is `b`:
the decoded value must be at least 2^16 and within the Unicode range. -/
def utf8Step4 (b : Byte) (rest : List Byte) : Option (Char × List Byte) :=
  match rest with
  | b1 :: b2 :: b3 :: rest3 =>
    if isCont b1 ∧ isCont b2 ∧ isCont b3
        ∧ 65536 ≤ (b - 240) * 262144 + (b1 - 128) * 4096 + (b2 - 128) * 64 + (b3 - 128)
        ∧ (b - 240) * 262144 + (b1 - 128) * 4096 + (b2 - 128) * 64 + (b3 - 128)
          < 1114112 then
      some (Char.ofNat ((b - 240) * 262144 + (b1 - 128) * 4096 + (b2 - 128) * 64
        + (b3 - 128)), rest3)
    else none
  | _ => none

/-- Decode one UTF-8 sequence from the front of the buffer.  Lead bytes
0xC0 and 0xC1 would only start overlong two-byte forms and are rejected
outright, as are lead bytes past 0xF4. -/
def utf8Step (bs : List Byte) : Option (Char × List Byte) :=
  match bs with
  | [] => none
  | b :: rest =>
    if b < 128 then some (Char.ofNat b, rest)
    else if b < 194 then none
    else if b < 224 then utf8Step2 b rest
    else if b < 240 then utf8Step3 b rest
    else if b < 245 then utf8Step4 b rest
    else none

/-- Repeated `utf8Step`.  One unit of `fuel` per decoded character is
always enough, since every sequence consumes at least one byte. -/
def utf8DecodeAux : Nat → List Byte → Option (List Char)
  | _, [] => some []
  | 0, _ :: _ => none
  | fuel + 1, b :: rest =>
    match utf8Step (b :: rest) with
    | none => none
    | some (ch, rest1) => (utf8DecodeAux fuel rest1).map fun cs => ch :: cs

/-- Strict UTF-8 decoding (`bytes.decode('utf-8')`): rejects stray or
overlong sequences, surrogate code points and values beyond the Unicode
range, as CPython's strict default error handler does. -/
def utf8DecodeList (bs : List Byte) : Option (List Char) :=
  utf8DecodeAux bs.length bs

/-! A parser for the JSON text `json.loads` receives here.  The envelope
schema is a flat object whose values are strings, so the model parses
exactly that grammar — any member order, any amount of the four JSON
whitespace characters, full string-escape handling — and returns the
members in order of appearance.  (Python would also accept non-string
values and, being lenient about lone surrogates, strings this model's
`Char`-based representation cannot hold; neither shape occurs in the
protocol.) -/

/-- The four JSON whitespace characters. -/
def isJsonWs (c : Char) : Bool :=
  c = ' ' || c = Char.ofNat 9 || c = Char.ofNat 10 || c = Char.ofNat 13

/-- Drop leading JSON whitespace. -/
def skipWs : List Char → List Char
  | [] => []
  | c :: cs => if isJsonWs c then skipWs cs else c :: cs

/-- Value of one hexadecimal digit, either case. -/
def hexVal? (c : Char) : Option Nat :=
  if 48 ≤ c.toNat ∧ c.toNat ≤ 57 then some (c.toNat - 48)
  else if 97 ≤ c.toNat ∧ c.toNat ≤ 102 then some (c.toNat - 87)
  else if 65 ≤ c.toNat ∧ c.toNat ≤ 70 then some (c.toNat - 55)
  else none

/-- Value of a four-digit hexadecimal escape body. -/
def hex4Val? (a b c d : Char) : Option Nat :=
  match hexVal? a, hexVal? b, hexVal? c, hexVal? d with
  | some x, some y, some z, some w => some (4096 * x + 256 * y + 16 * z + w)
  | _, _, _, _ => none

/-- One unescaped string-escape character, when recognized. -/
def unescapeChar? (e : Char) : Option Char :=
  if e = '"' then some '"'
  else if e = '\\' then some '\\'
  else if e = '/' then some '/'
  else if e = 'b' then some (Char.ofNat 8)
  else if e = 'f' then some (Char.ofNat 12)
  else if e = 'n' then some (Char.ofNat 10)
  else if e = 'r' then some (Char.ofNat 13)
  else if e = 't' then some (Char.ofNat 9)
  else none

/-- A low-surrogate backslash-u escape completing the surrogate pair
begun by a high surrogate `n`. -/
def parseLowSurrogate (n : Nat) (cs : List Char) : Option (Char × List Char) :=
  match cs with
  | e2 :: u2 :: g1 :: g2 :: g3 :: g4 :: cs3 =>
    if e2 = '\\' ∧ u2 = 'u' then
      match hex4Val? g1 g2 g3 g4 with
      | none => none
      | some m =>
        if 56320 ≤ m ∧ m < 57344 then
          some (Char.ofNat (65536 + (n - 55296) * 1024 + (m - 56320)), cs3)
        else none
    else none
  | _ => none

/-- A backslash-u escape body: four hexadecimal digits, a high surrogate
demanding a paired low surrogate, a lone low surrogate rejected.  (Python
itself tolerates lone surrogates in decoded strings; this model's
character type cannot hold them, and the protocol never produces
them.) -/
def parseUEscape (cs : List Char) : Option (Char × List Char) :=
  match cs with
  | h1 :: h2 :: h3 :: h4 :: cs2 =>
    match hex4Val? h1 h2 h3 h4 with
    | none => none
    | some n =>
      if 55296 ≤ n ∧ n < 56320 then parseLowSurrogate n cs2
      else if 56320 ≤ n ∧ n < 57344 then none
      else some (Char.ofNat n, cs2)
  | _ => none

/-- A string escape, after the backslash. -/
def parseEscape (cs : List Char) : Option (Char × List Char) :=
  match cs with
  | [] => none
  | e :: cs1 =>
    if e = 'u' then parseUEscape cs1
    else
      match unescapeChar? e with
      | none => none
      | some u => some (u, cs1)

/-- Body of a JSON string literal, after the opening quote: collect
characters up to the closing quote, resolving escapes and rejecting raw
control characters.  `fuel` bounds the recursion; one unit per produced
character is always enough. -/
def parseStringBody : Nat → List Char → Option (List Char × List Char)
  | 0, _ => none
  | _, [] => none
  | fuel + 1, c :: cs =>
    if c = '"' then some ([], cs)
    else if c = '\\' then
      match parseEscape cs with
      | none => none
      | some (u, cs1) => (parseStringBody fuel cs1).map fun r => (u :: r.1, r.2)
    else if c.toNat < 32 then none
    else (parseStringBody fuel cs).map fun r => (c :: r.1, r.2)

/-- A JSON string literal, opening quote included. -/
def parseJString (cs : List Char) : Option (List Char × List Char) :=
  match cs with
  | [] => none
  | c :: cs1 => if c = '"' then parseStringBody (cs1.length + 1) cs1 else none

/-- The members of a JSON object, after its opening brace (and after any
leading whitespace): string keys and string values, separated by commas,
closed by a brace.  Returns the members in order of appearance. -/
def parseMembers : Nat → List (String × String) → List Char →
    Option (List (String × String) × List Char)
  | 0, _, _ => none
  | fuel + 1, acc, cs =>
    match parseJString cs with
    | none => none
    | some (k, cs1) =>
      match skipWs cs1 with
      | [] => none
      | c :: cs2 =>
        if c = ':' then
          match parseJString (skipWs cs2) with
          | none => none
          | some (v, cs3) =>
            match skipWs cs3 with
            | [] => none
            | d :: cs4 =>
              if d = ',' then
                parseMembers fuel (acc ++ [(String.mk k, String.mk v)]) (skipWs cs4)
              else if d = '\x7d' then
                some (acc ++ [(String.mk k, String.mk v)], cs4)
              else none
        else none

/-- A whole JSON object of string members, whitespace tolerated, with
nothing but whitespace allowed after it — `json.loads` rejects trailing
data. -/
def parseJsonObject (cs : List Char) : Option (List (String × String)) :=
  match skipWs cs with
  | [] => none
  | c :: cs1 =>
    if c = '\x7b' then
      match skipWs cs1 with
      | [] => none
      | d :: cs2 =>
        if d = '\x7d' then
          if (skipWs cs2).isEmpty then some [] else none
        else
          match parseMembers (cs1.length + 1) [] (skipWs cs1) with
          | none => none
          | some (pairs, rest) =>
            if (skipWs rest).isEmpty then some pairs else none
    else none

/-- Last-wins dictionary lookup, matching how repeated keys land in the
dictionary `json.loads` builds. -/
def dictLookup (pairs : List (String × String)) (k : String) : Option String :=
  (pairs.reverse.find? fun p => p.1 == k).map Prod.snd

/-- The decoding half of `receive_message` (lines 100-104): decode the
body bytes as UTF-8, parse the JSON object, and require the `type` and
`payload` entries (the script reads both; a missing one raises and is
caught).  The other two fields default to the empty string when absent —
the script never reads them, so nothing observes a difference. -/
def parseEnvelope (bs : List Byte) : Option Envelope :=
  match utf8DecodeList bs with
  | none => none
  | some cs =>
    match parseJsonObject cs with
    | none => none
    | some pairs =>
      match dictLookup pairs "type", dictLookup pairs "payload" with
      | some t, some p =>
        some { type := t, payload := p,
               request_id := (dictLookup pairs "request_id").getD "",
               client_id := (dictLookup pairs "client_id").getD "" }
      | _, _ => none

/-! The session: one `PhantomVaultIPCClient` object owning one socket. -/

/-- How the connection treats one `socket.send` call: accept up to `n`
bytes (a short write drops the rest, since the script ignores the count
`send` returns), or raise an error. -/
inductive SendOutcome where
  | accepted (n : Nat)
  | failed
deriving DecidableEq, Repr

/-- The two directions of the connected socket: the chunks the read side
will deliver, the outcomes the write side will produce (an exhausted
schedule accepts everything), and the bytes actually written so far. -/
structure Conn where
  input : ByteStream
  sendSched : List SendOutcome
  written : List Byte
deriving DecidableEq, Repr

/-- The client object: socket path, optional connected socket, and the
session-scoped client identifier (lines 16-21). -/
structure PhantomVaultIPCClient where
  socket_path : String
  socket : Option Conn
  client_id : String
deriving DecidableEq, Repr

/-- One `socket.send(bs)` call under the connection's schedule: `true`
with the accepted bytes appended to the wire, or `false` for a raised
error. -/
def sendOnce (conn : Conn) (bs : List Byte) : Bool × Conn :=
  match conn.sendSched with
  | [] => (true, { conn with written := conn.written ++ bs })
  | SendOutcome.accepted n :: rest =>
    (true, { conn with sendSched := rest, written := conn.written ++ bs.take n })
  | SendOutcome.failed :: rest =>
    (false, { conn with sendSched := rest })

/-- Decimal digits of a number, as Python's string formatting of an
`int` renders it.  `fuel` bounds the recursion; `n + 1` is always
enough. -/
def natToDecimalAux : Nat → Nat → List Char
  | 0, _ => []
  | fuel + 1, n =>
    if n < 10 then [Nat.digitChar n]
    else natToDecimalAux fuel (n / 10) ++ [Nat.digitChar (n % 10)]

/-- Decimal rendering of a natural number. -/
def natToDecimal (n : Nat) : List Char := natToDecimalAux (n + 1) n

/-- The request identifier `send_message` generates when none is given:
the wall clock in milliseconds interpolated after `req_` (line 50). -/
def genRequestId (nowMs : Nat) : String :=
  String.mk ('r' :: 'e' :: 'q' :: '_' :: natToDecimal nowMs)

/-- A freshly constructed client (lines 16-21): stored socket path, no
socket yet, and a client identifier derived from the wall clock in
seconds. -/
def mkClient (socket_path : String) (nowS : Nat) : PhantomVaultIPCClient :=
  { socket_path := socket_path, socket := none,
    client_id := String.mk
      ('t' :: 'e' :: 's' :: 't' :: '_' :: 'c' :: 'l' :: 'i' :: 'e' :: 'n' :: 't'
        :: '_' :: natToDecimal nowS) }

/-- The message dictionary `send_message` builds (lines 47-52).  Python's
`request_id or f-string` takes the generated identifier exactly when the
argument is the empty string. -/
def builtMessage (c : PhantomVaultIPCClient) (nowMs : Nat)
    (message_type payload request_id : String) : Envelope :=
  { type := message_type, payload := payload,
    request_id := if request_id = "" then genRequestId nowMs else request_id,
    client_id := c.client_id }

/-- `receive_message` (lines 75-108): nothing happens without a socket;
otherwise decode one frame from the stream and parse its body, with
every failure collapsed to `none` by the handler. -/
def receive_message (c : PhantomVaultIPCClient) :
    Option Envelope × PhantomVaultIPCClient :=
  match c.socket with
  | none => (none, c)
  | some conn =>
    let r := frameDecode conn.input
    let c' := { c with socket := some { conn with input := r.2 } }
    match r.1 with
    | RecvResult.ok body => (parseEnvelope body, c')
    | _ => (none, c')

/-- `send_message` (lines 41-73): fail fast without a socket; build the
message, serialize it, pack the length header (`struct.pack('I', ...)`
raises beyond 2^32, caught by the handler before anything is sent), send
the header, send the body — each a single unchecked `send` — then block
in `receive_message` for the reply.  Any raised error is caught and
collapsed to `none`. -/
def send_message (c : PhantomVaultIPCClient) (nowMs : Nat)
    (message_type payload request_id : String) :
    Option Envelope × PhantomVaultIPCClient :=
  match c.socket with
  | none => (none, c)
  | some conn =>
    let message_bytes :=
      utf8Encode (envelopeToJson (builtMessage c nowMs message_type payload request_id))
    if message_bytes.length < 2 ^ 32 then
      let s1 := sendOnce conn (packLE4 message_bytes.length)
      if s1.1 then
        let s2 := sendOnce s1.2 message_bytes
        if s2.1 then receive_message { c with socket := some s2.2 }
        else (none, { c with socket := some s2.2 })
      else (none, { c with socket := some s1.2 })
    else (none, c)

/-- `disconnect` (lines 34-39): close and drop the socket when there is
one, do nothing otherwise. -/
def disconnect (c : PhantomVaultIPCClient) : PhantomVaultIPCClient :=
  match c.socket with
  | some _ => { c with socket := none }
  | none => c

/-! Codec lemmas.  The round-trip reasoning below is carried out for
strings of printable ASCII characters that need no escaping; the
definitions themselves handle the full character range. -/

/-- A character that `json.dumps` passes through unescaped: printable
ASCII other than the quote and the backslash. -/
def asciiSafeChar (c : Char) : Prop :=
  32 ≤ c.toNat ∧ c.toNat ≤ 126 ∧ c ≠ '"' ∧ c ≠ '\\'

instance (c : Char) : Decidable (asciiSafeChar c) := by
  unfold asciiSafeChar; infer_instance

/-- A string all of whose characters are escape-free printable ASCII. -/
def asciiSafeString (s : String) : Prop := ∀ c ∈ s.data, asciiSafeChar c

instance (s : String) : Decidable (asciiSafeString s) := by
  unfold asciiSafeString; infer_instance

/-- The numeric value a digit string denotes. -/
def decVal (l : List Char) : Nat :=
  l.foldl (fun a c => 10 * a + (c.toNat - 48)) 0

/-! Concrete fixtures: a sample service reply and two connected clients,
used to instantiate the theorems below on closed inputs. -/

/-- A sample reply the service might send: note its `request_id` is not
one the client would generate. -/
def pongEnvelope : Envelope :=
  { type := "PONG", payload := "pong", request_id := "srv_reply",
    client_id := "svc" }

/-- A connection whose read side holds one framed `pongEnvelope` reply
and whose write side accepts every send in full. -/
def okConn : Conn :=
  { input := [frameEncode (utf8Encode (envelopeToJson pongEnvelope))],
    sendSched := [], written := [] }

/-- A connected client over `okConn`. -/
def okClient : PhantomVaultIPCClient :=
  { socket_path := "/tmp/phantom-vault-1000.sock", socket := some okConn,
    client_id := "test_client_7" }

/-- A connected client whose socket accepts only one byte of each of the
two `send` calls — the short-write situation the script never checks
for. -/
def shortWriteClient : PhantomVaultIPCClient :=
  { socket_path := "/tmp/phantom-vault-1000.sock",
    socket := some { input := [frameEncode (utf8Encode (envelopeToJson pongEnvelope))],
                     sendSched := [SendOutcome.accepted 1, SendOutcome.accepted 1],
                     written := [] },
    client_id := "test_client_7" }

/-! Framing-layer lemmas. -/

theorem unpackLE4_packLE4 (n : Nat) (h : n < 2 ^ 32) :
    unpackLE4 (packLE4 n) = n := by
  simp only [packLE4, unpackLE4]
  omega

theorem length_packLE4 (n : Nat) : (packLE4 n).length = 4 := rfl

/-- Taking `k` bytes from a chunked buffer splits into what the first
chunk yields and what the remainder must still provide. -/
theorem take_chunk_split (c X : List Byte) (k : Nat) :
    (c ++ X).take k = c.take k ++ (c.drop k ++ X).take (k - (c.take k).length) := by
  rcases Nat.le_total k c.length with hkc | hkc
  · have h1 : (c.take k).length = k := by rw [List.length_take]; omega
    rw [List.take_append_of_le_length hkc, h1, Nat.sub_self, List.take_zero,
      List.append_nil]
  · have h1 : c.take k = c := List.take_of_length_le hkc
    have h2 : c.drop k = [] := List.drop_of_length_le hkc
    rw [h1, h2, List.nil_append]
    rw [show (c ++ X).take k = c ++ X.take (k - c.length) by
      conv_lhs =>
        rw [show k = c.length + (k - c.length) by omega, List.take_add,
          List.take_left, List.drop_left]]

/-- When at least the requested bytes remain, the body loop gathers
exactly the next `need - acc.length` bytes of the stream. -/
theorem recvBody_complete (fuel : Nat) :
    ∀ (need : Nat) (acc : List Byte) (s : ByteStream),
      LiveStream s →
      need - acc.length ≤ s.flatten.length →
      need - acc.length ≤ fuel →
      (recvBody fuel need acc s).1 = acc ++ s.flatten.take (need - acc.length) := by
  induction fuel with
  | zero =>
    intro need acc s _ _ hfuel
    have h0 : need - acc.length = 0 := Nat.le_zero.mp hfuel
    simp [recvBody, h0]
  | succ fuel ih =>
    intro need acc s hlive havail hfuel
    by_cases hlt : acc.length < need
    · have hk : 1 ≤ need - acc.length := by omega
      match s, hlive, havail with
      | [], _, havail =>
        simp only [List.flatten_nil, List.length_nil] at havail
        omega
      | c :: rest, hlive, havail =>
        have hc : c ≠ [] := hlive c (List.mem_cons_self c rest)
        have hcpos : 0 < c.length := List.length_pos.mpr hc
        have htlen : (c.take (need - acc.length)).length
            = min (need - acc.length) c.length := List.length_take _ c
        have htpos : 0 < (c.take (need - acc.length)).length := by
          rw [htlen]; omega
        have hne : ¬ (c.take (need - acc.length)).isEmpty := by
          cases hck : c.take (need - acc.length) with
          | nil => rw [hck] at htpos; simp at htpos
          | cons a l => simp [hck, List.isEmpty]
        simp only [recvBody, hlt, if_pos, recv]
        rw [if_neg (by simpa using hne)]
        have hflat' :
            (if (c.drop (need - acc.length)).isEmpty then rest
              else c.drop (need - acc.length) :: rest).flatten
            = c.drop (need - acc.length) ++ rest.flatten := by
          by_cases hd : (c.drop (need - acc.length)).isEmpty
          · have hnil : c.drop (need - acc.length) = [] := by
              cases hck : c.drop (need - acc.length) with
              | nil => rfl
              | cons a l => rw [hck] at hd; simp [List.isEmpty] at hd
            simp [hd, hnil]
          · simp [hd]
        have hlive' : LiveStream (if (c.drop (need - acc.length)).isEmpty then rest
            else c.drop (need - acc.length) :: rest) := by
          intro x hx
          by_cases hd : (c.drop (need - acc.length)).isEmpty
          · rw [if_pos hd] at hx
            exact hlive x (List.mem_cons_of_mem c hx)
          · rw [if_neg hd] at hx
            rcases List.mem_cons.mp hx with h | h
            · subst h
              cases hck : c.drop (need - acc.length) with
              | nil => rw [hck] at hd; simp [List.isEmpty] at hd
              | cons a l => simp [hck]
            · exact hlive x (List.mem_cons_of_mem c h)
        have havail' : need - (acc ++ c.take (need - acc.length)).length
            ≤ (if (c.drop (need - acc.length)).isEmpty then rest
              else c.drop (need - acc.length) :: rest).flatten.length := by
          rw [hflat']
          simp only [List.flatten_cons, List.length_append, List.length_drop]
            at havail ⊢
          omega
        have hfuel' : need - (acc ++ c.take (need - acc.length)).length ≤ fuel := by
          rw [List.length_append]
          omega
        rw [ih need (acc ++ c.take (need - acc.length)) _ hlive' havail' hfuel']
        rw [hflat', List.append_assoc]
        congr 1
        have hgap : need - (acc ++ c.take (need - acc.length)).length
            = (need - acc.length) - (c.take (need - acc.length)).length := by
          rw [List.length_append]; omega
        rw [hgap]
        simp only [List.flatten_cons]
        exact (take_chunk_split c rest.flatten (need - acc.length)).symm
    · have h0 : need - acc.length = 0 := by omega
      simp [recvBody, hlt, h0]

/-- When the stream holds fewer bytes than requested, the body loop
gathers everything the stream still has. -/
theorem recvBody_exhaust (fuel : Nat) :
    ∀ (need : Nat) (acc : List Byte) (s : ByteStream),
      LiveStream s →
      s.flatten.length < need - acc.length →
      s.flatten.length < fuel →
      (recvBody fuel need acc s).1 = acc ++ s.flatten := by
  induction fuel with
  | zero =>
    intro need acc s _ _ hfuel
    omega
  | succ fuel ih =>
    intro need acc s hlive havail hfuel
    have hlt : acc.length < need := by omega
    match s with
    | [] => simp [recvBody, hlt, recv]
    | c :: rest =>
      have hc : c ≠ [] := hlive c (List.mem_cons_self c rest)
      have hcpos : 0 < c.length := List.length_pos.mpr hc
      set k := need - acc.length with hkdef
      have hclen : c.length ≤ (c :: rest).flatten.length := by
        simp [List.flatten_cons]
      have hck : c.length < k := by omega
      have htake : c.take k = c := List.take_of_length_le (by omega)
      have hdropempty : (c.drop k).isEmpty := by
        rw [List.drop_of_length_le (by omega)]; rfl
      have hne : ¬ (c.take k).isEmpty := by
        rw [htake]
        cases hcc : c with
        | nil => exact absurd hcc hc
        | cons a l => simp [List.isEmpty]
      simp only [recvBody, hlt, if_pos, recv]
      rw [if_neg (by simpa using hne)]
      rw [if_pos hdropempty]
      have hlive' : LiveStream rest := fun x hx => hlive x (List.mem_cons_of_mem c hx)
      have hflen : rest.flatten.length = (c :: rest).flatten.length - c.length := by
        simp [List.flatten_cons]
      have havail' : rest.flatten.length < need - (acc ++ c.take k).length := by
        rw [List.length_append, htake, hflen]
        omega
      have hfuel' : rest.flatten.length < fuel := by
        rw [hflen]; omega
      rw [ih need (acc ++ c.take k) rest hlive' havail' hfuel']
      rw [htake, List.append_assoc, List.flatten_cons]

/-- On a live stream whose first chunk covers the whole 4-byte header, a
frame carrying a payload of representable length decodes back to exactly
that payload, no matter how the remaining bytes are chunked. -/
theorem frameDecode_complete (payload : List Byte) (cs : ByteStream)
    (hlive : LiveStream cs)
    (hflat : cs.flatten = frameEncode payload)
    (hlen : payload.length < 2 ^ 32)
    (hhdr : 4 ≤ (cs.headD []).length) :
    (frameDecode cs).1 = RecvResult.ok payload := by
  match cs with
  | [] => simp at hhdr
  | c :: rest =>
    simp only [List.headD_cons] at hhdr
    have htake4 : (c.take 4).length = 4 := by
      rw [List.length_take]; omega
    have hhdr4 : c.take 4 = packLE4 payload.length := by
      have h1 : (c :: rest).flatten.take 4 = c.take 4 := by
        simp only [List.flatten_cons]
        rw [List.take_append_of_le_length hhdr]
      have h2 : (frameEncode payload).take 4 = packLE4 payload.length := by
        unfold frameEncode
        rw [← length_packLE4 payload.length]
        exact List.take_left _ _
      rw [← h1, hflat, h2]
    have hbody : ((c :: rest).flatten).drop 4 = payload := by
      rw [hflat]
      unfold frameEncode
      rw [← length_packLE4 payload.length]
      exact List.drop_left _ _
    unfold frameDecode
    simp only [recv]
    rw [if_neg (by rw [htake4]; exact fun h => absurd rfl h)]
    rw [hhdr4, unpackLE4_packLE4 payload.length hlen]
    set s1 : ByteStream := if (c.drop 4).isEmpty then rest else c.drop 4 :: rest
      with hs1def
    have hflat1 : s1.flatten = payload := by
      by_cases hd : (c.drop 4).isEmpty
      · have hnil : c.drop 4 = [] := by
          cases hcc : c.drop 4 with
          | nil => rfl
          | cons a l => rw [hcc] at hd; simp [List.isEmpty] at hd
        rw [hs1def, if_pos hd]
        rw [← hbody]
        simp only [List.flatten_cons]
        rw [List.drop_append_of_le_length hhdr, hnil, List.nil_append]
      · rw [hs1def, if_neg hd]
        rw [← hbody]
        simp only [List.flatten_cons]
        rw [List.drop_append_of_le_length hhdr]
    have hlive1 : LiveStream s1 := by
      intro x hx
      by_cases hd : (c.drop 4).isEmpty
      · rw [hs1def, if_pos hd] at hx
        exact hlive x (List.mem_cons_of_mem c hx)
      · rw [hs1def, if_neg hd] at hx
        rcases List.mem_cons.mp hx with h | h
        · subst h
          cases hcc : c.drop 4 with
          | nil => rw [hcc] at hd; simp [List.isEmpty] at hd
          | cons a l => simp [hcc]
        · exact hlive x (List.mem_cons_of_mem c h)
    have hloop :
        (recvBody payload.length payload.length [] s1).1 = payload := by
      rw [recvBody_complete payload.length payload.length [] s1 hlive1
        (by rw [hflat1]; simp) (by simp)]
      rw [hflat1]
      simp
    simp only [hloop]
    rw [if_neg (fun h => absurd rfl h)]

/-- A successful frame decode always returns exactly as many bytes as the
header declared: there is no silent short result. -/
theorem frameDecode_ok_length (s : ByteStream) (p : List Byte)
    (h : (frameDecode s).1 = RecvResult.ok p) :
    p.length = unpackLE4 (recv 4 s).1 := by
  unfold frameDecode at h
  by_cases h4 : (recv 4 s).1.length ≠ 4
  · simp only [if_pos h4] at h
    exact RecvResult.noConfusion h
  · simp only [if_neg h4] at h
    by_cases hb : (recvBody (unpackLE4 (recv 4 s).1) (unpackLE4 (recv 4 s).1) []
        (recv 4 s).2).1.length ≠ unpackLE4 (recv 4 s).1
    · simp only [if_pos hb] at h
      exact RecvResult.noConfusion h
    · simp only [if_neg hb] at h
      rw [← RecvResult.ok.inj h]
      omega

theorem jsonEscapeChar_safe (c : Char) (h : asciiSafeChar c) :
    jsonEscapeChar c = [c] := by
  obtain ⟨h1, h2, h3, h4⟩ := h
  unfold jsonEscapeChar
  rw [if_neg h3, if_neg h4,
    if_neg (by intro he; rw [he] at h1; exact absurd h1 (by decide)),
    if_neg (by intro he; rw [he] at h1; exact absurd h1 (by decide)),
    if_neg (by intro he; rw [he] at h1; exact absurd h1 (by decide)),
    if_neg (by intro he; rw [he] at h1; exact absurd h1 (by decide)),
    if_neg (by intro he; rw [he] at h1; exact absurd h1 (by decide)),
    if_neg (by omega)]

theorem flatMap_jsonEscape_safe (l : List Char) (h : ∀ c ∈ l, asciiSafeChar c) :
    l.flatMap jsonEscapeChar = l := by
  induction l with
  | nil => rfl
  | cons c cs ih =>
    rw [List.flatMap_cons, jsonEscapeChar_safe c (h c (List.mem_cons_self c cs)),
      ih (fun x hx => h x (List.mem_cons_of_mem c hx))]
    rfl

theorem jsonQuote_safe (s : String) (h : asciiSafeString s) :
    jsonQuote s = '"' :: (s.data ++ ['"']) := by
  unfold jsonQuote
  rw [flatMap_jsonEscape_safe s.data h]

theorem utf8EncodeChar_ascii (c : Char) (h : c.toNat < 128) :
    utf8EncodeChar c = [c.toNat] := by
  unfold utf8EncodeChar
  rw [if_pos h]

theorem utf8DecodeAux_ascii (l : List Char) :
    ∀ fuel, (∀ c ∈ l, c.toNat < 128) → (utf8Encode l).length ≤ fuel →
      utf8DecodeAux fuel (utf8Encode l) = some l := by
  induction l with
  | nil =>
    intro fuel _ _
    show utf8DecodeAux fuel [] = some []
    cases fuel <;> rfl
  | cons c cs ih =>
    intro fuel hsafe hlen
    have hc := hsafe c (List.mem_cons_self c cs)
    have hcs : ∀ x ∈ cs, x.toNat < 128 :=
      fun x hx => hsafe x (List.mem_cons_of_mem c hx)
    have hE : utf8Encode (c :: cs) = c.toNat :: utf8Encode cs := by
      show utf8EncodeChar c ++ utf8Encode cs = _
      rw [utf8EncodeChar_ascii c hc, List.singleton_append]
    rw [hE] at hlen ⊢
    match fuel, hlen with
    | fuel + 1, hlen =>
      have hstep : utf8Step (c.toNat :: utf8Encode cs)
          = some (Char.ofNat c.toNat, utf8Encode cs) := by
        simp only [utf8Step]
        rw [if_pos hc]
      simp only [utf8DecodeAux, hstep]
      rw [ih fuel hcs (by simp only [List.length_cons] at hlen; omega)]
      simp only [Option.map_some', Char.ofNat_toNat]

/-- UTF-8 round trip on ASCII text. -/
theorem utf8_rt_ascii (l : List Char) (h : ∀ c ∈ l, c.toNat < 128) :
    utf8DecodeList (utf8Encode l) = some l := by
  unfold utf8DecodeList
  exact utf8DecodeAux_ascii l (utf8Encode l).length h le_rfl

theorem memberChars_ascii (k v : String) (rest : List Char)
    (hk : asciiSafeString k) (hv : asciiSafeString v)
    (hrest : ∀ c ∈ rest, c.toNat < 128) :
    ∀ c ∈ memberChars k v rest, c.toNat < 128 := by
  unfold memberChars
  rw [jsonQuote_safe k hk, jsonQuote_safe v hv]
  intro c hc
  simp only [List.mem_append, List.mem_cons, List.not_mem_nil, or_false] at hc
  rcases hc with (rfl | hc | rfl) | rfl | rfl | (rfl | hc | rfl) | hc
  · decide
  · exact lt_of_le_of_lt (hk c hc).2.1 (by omega)
  · decide
  · decide
  · decide
  · decide
  · exact lt_of_le_of_lt (hv c hc).2.1 (by omega)
  · decide
  · exact hrest c hc

theorem envelopeToJson_ascii (e : Envelope)
    (ht : asciiSafeString e.type) (hp : asciiSafeString e.payload)
    (hr : asciiSafeString e.request_id) (hcid : asciiSafeString e.client_id) :
    ∀ c ∈ envelopeToJson e, c.toNat < 128 := by
  have h4 : ∀ c ∈ memberChars "client_id" e.client_id ['\x7d'], c.toNat < 128 :=
    memberChars_ascii _ _ _ (by decide) hcid (by decide)
  have h3 : ∀ c ∈ memberChars "request_id" e.request_id
      (',' :: ' ' :: memberChars "client_id" e.client_id ['\x7d']), c.toNat < 128 := by
    refine memberChars_ascii _ _ _ (by decide) hr ?_
    intro c hc
    rcases List.mem_cons.mp hc with rfl | hc
    · decide
    · rcases List.mem_cons.mp hc with rfl | hc
      · decide
      · exact h4 c hc
  have h2 : ∀ c ∈ memberChars "payload" e.payload (',' :: ' ' ::
      memberChars "request_id" e.request_id
        (',' :: ' ' :: memberChars "client_id" e.client_id ['\x7d'])), c.toNat < 128 := by
    refine memberChars_ascii _ _ _ (by decide) hp ?_
    intro c hc
    rcases List.mem_cons.mp hc with rfl | hc
    · decide
    · rcases List.mem_cons.mp hc with rfl | hc
      · decide
      · exact h3 c hc
  have h1 : ∀ c ∈ memberChars "type" e.type (',' :: ' ' ::
      memberChars "payload" e.payload (',' :: ' ' ::
        memberChars "request_id" e.request_id
          (',' :: ' ' :: memberChars "client_id" e.client_id ['\x7d']))), c.toNat < 128 := by
    refine memberChars_ascii _ _ _ (by decide) ht ?_
    intro c hc
    rcases List.mem_cons.mp hc with rfl | hc
    · decide
    · rcases List.mem_cons.mp hc with rfl | hc
      · decide
      · exact h2 c hc
  intro c hc
  rcases List.mem_cons.mp hc with rfl | hc
  · decide
  · exact h1 c hc

/-! Decimal rendering lemmas, used for the generated request identifier. -/

theorem digitChar_toNat (k : Nat) (h : k < 10) : (Nat.digitChar k).toNat = 48 + k := by
  interval_cases k <;> rfl

theorem decVal_append_digit (l : List Char) (d : Char) :
    decVal (l ++ [d]) = 10 * decVal l + (d.toNat - 48) := by
  simp [decVal, List.foldl_append]

theorem decVal_natToDecimalAux (fuel : Nat) :
    ∀ n, n < fuel → decVal (natToDecimalAux fuel n) = n := by
  induction fuel with
  | zero => intro n h; omega
  | succ fuel ih =>
    intro n h
    by_cases h10 : n < 10
    · simp only [natToDecimalAux, if_pos h10]
      simp [decVal, digitChar_toNat n h10]
    · have hdiv : n / 10 < fuel := by omega
      simp only [natToDecimalAux, if_neg h10]
      rw [decVal_append_digit, ih (n / 10) hdiv, digitChar_toNat (n % 10) (by omega)]
      omega

theorem natToDecimal_inj {a b : Nat} (h : natToDecimal a = natToDecimal b) : a = b := by
  have ha := decVal_natToDecimalAux (a + 1) a (by omega)
  have hb := decVal_natToDecimalAux (b + 1) b (by omega)
  unfold natToDecimal at h
  rw [← ha, ← hb, h]

theorem genRequestId_inj {a b : Nat} (h : genRequestId a = genRequestId b) : a = b := by
  unfold genRequestId at h
  have hl := congrArg String.data h
  simp only [String.data] at hl
  simp only [List.cons.injEq, true_and] at hl
  exact natToDecimal_inj hl

/-! Parser lemmas: walking the parser over the exact text the serializer
produced for escape-free fields. -/

theorem skipWs_not_ws (c : Char) (cs : List Char) (h : isJsonWs c = false) :
    skipWs (c :: cs) = c :: cs := by
  simp [skipWs, h]

theorem skipWs_space (cs : List Char) : skipWs (' ' :: cs) = skipWs cs := by
  simp [skipWs, isJsonWs]

theorem parseStringBody_safe (content : List Char) :
    ∀ (fuel : Nat) (rest : List Char), (∀ c ∈ content, asciiSafeChar c) →
      content.length < fuel →
      parseStringBody fuel (content ++ '"' :: rest) = some (content, rest) := by
  induction content with
  | nil =>
    intro fuel rest _ hfuel
    match fuel, hfuel with
    | fuel + 1, _ =>
      simp [parseStringBody]
  | cons c cs ih =>
    intro fuel rest hsafe hfuel
    obtain ⟨h1, h2, h3, h4⟩ := hsafe c (List.mem_cons_self c cs)
    match fuel, hfuel with
    | fuel + 1, hfuel =>
      show parseStringBody (fuel + 1) (c :: (cs ++ '"' :: rest)) = _
      simp only [parseStringBody]
      rw [if_neg h3, if_neg h4, if_neg (by omega)]
      rw [ih fuel rest (fun x hx => hsafe x (List.mem_cons_of_mem c hx))
        (by simp only [List.length_cons] at hfuel; omega)]
      rfl

theorem parseJString_quoted (content rest : List Char)
    (h : ∀ c ∈ content, asciiSafeChar c) :
    parseJString ('"' :: (content ++ '"' :: rest)) = some (content, rest) := by
  simp only [parseJString, if_pos]
  exact parseStringBody_safe content _ rest h
    (by simp only [List.length_append, List.length_cons]; omega)

theorem parseMembers_step (fuel : Nat) (acc : List (String × String))
    (k v : String) (rest : List Char)
    (hk : asciiSafeString k) (hv : asciiSafeString v) :
    parseMembers (fuel + 1) acc (memberChars k v (',' :: ' ' :: rest))
      = parseMembers fuel (acc ++ [(k, v)]) (skipWs rest) := by
  have hshape : memberChars k v (',' :: ' ' :: rest)
      = '"' :: (k.data ++ '"' :: (':' :: ' ' ::
          ('"' :: (v.data ++ '"' :: (',' :: ' ' :: rest))))) := by
    unfold memberChars
    rw [jsonQuote_safe k hk, jsonQuote_safe v hv]
    simp [List.append_assoc]
  rw [hshape]
  simp only [parseMembers]
  rw [parseJString_quoted k.data _ hk]
  dsimp only
  rw [skipWs_not_ws ':' _ (by decide)]
  dsimp only
  rw [if_pos rfl]
  rw [skipWs_space, skipWs_not_ws '"' _ (by decide)]
  rw [parseJString_quoted v.data _ hv]
  dsimp only
  rw [skipWs_not_ws ',' _ (by decide)]
  dsimp only
  rw [if_pos rfl, skipWs_space]

theorem parseMembers_close (fuel : Nat) (acc : List (String × String))
    (k v : String) (rest : List Char)
    (hk : asciiSafeString k) (hv : asciiSafeString v) :
    parseMembers (fuel + 1) acc (memberChars k v ('\x7d' :: rest))
      = some (acc ++ [(k, v)], rest) := by
  have hshape : memberChars k v ('\x7d' :: rest)
      = '"' :: (k.data ++ '"' :: (':' :: ' ' ::
          ('"' :: (v.data ++ '"' :: ('\x7d' :: rest))))) := by
    unfold memberChars
    rw [jsonQuote_safe k hk, jsonQuote_safe v hv]
    simp [List.append_assoc]
  rw [hshape]
  simp only [parseMembers]
  rw [parseJString_quoted k.data _ hk]
  dsimp only
  rw [skipWs_not_ws ':' _ (by decide)]
  dsimp only
  rw [if_pos rfl]
  rw [skipWs_space, skipWs_not_ws '"' _ (by decide)]
  rw [parseJString_quoted v.data _ hv]
  dsimp only
  rw [skipWs_not_ws '\x7d' _ (by decide)]
  dsimp only
  rw [if_neg (by decide), if_pos rfl]

theorem skipWs_memberChars (k v : String) (rest : List Char)
    (hk : asciiSafeString k) :
    skipWs (memberChars k v rest) = memberChars k v rest := by
  unfold memberChars
  rw [jsonQuote_safe k hk]
  simp only [List.cons_append]
  exact skipWs_not_ws '"' _ (by decide)

theorem memberChars_cons_quote (k v : String) (rest : List Char)
    (hk : asciiSafeString k) :
    memberChars k v rest
      = '"' :: (k.data ++ ['"'] ++ (':' :: ' ' :: (jsonQuote v ++ rest))) := by
  unfold memberChars
  rw [jsonQuote_safe k hk]
  simp [List.append_assoc]

/-- Reduction of `parseJsonObject` on a brace followed by a nonempty
object body that starts with a quote and whose members parse leaving
only whitespace behind. -/
theorem parseJsonObject_step (R T : List Char) (hR : R = '"' :: T)
    (pairs : List (String × String)) (rest : List Char)
    (h : parseMembers (R.length + 1) [] R = some (pairs, rest))
    (hrest : (skipWs rest).isEmpty) :
    parseJsonObject ('\x7b' :: R) = some pairs := by
  subst hR
  unfold parseJsonObject
  rw [skipWs_not_ws '\x7b' _ (by decide)]
  dsimp only
  rw [if_pos rfl]
  rw [skipWs_not_ws '"' T (by decide)]
  dsimp only
  rw [if_neg (by decide)]
  rw [h]
  dsimp only
  rw [if_pos hrest]

theorem parseJsonObject_envelope (e : Envelope)
    (ht : asciiSafeString e.type) (hp : asciiSafeString e.payload)
    (hr : asciiSafeString e.request_id) (hcid : asciiSafeString e.client_id) :
    parseJsonObject (envelopeToJson e)
      = some [("type", e.type), ("payload", e.payload),
              ("request_id", e.request_id), ("client_id", e.client_id)] := by
  unfold envelopeToJson
  set M4 := memberChars "client_id" e.client_id ['\x7d'] with hM4
  set M3 := memberChars "request_id" e.request_id (',' :: ' ' :: M4) with hM3
  set M2 := memberChars "payload" e.payload (',' :: ' ' :: M3) with hM2
  set M1 := memberChars "type" e.type (',' :: ' ' :: M2) with hM1
  have hcons1 := memberChars_cons_quote "type" e.type (',' :: ' ' :: M2) (by decide)
  have hlen1 : 3 ≤ M1.length := by
    rw [hM1, hcons1]
    simp
  obtain ⟨m, hm⟩ : ∃ m, M1.length + 1 = m + 4 := ⟨M1.length - 3, by omega⟩
  have hmembers : parseMembers (M1.length + 1) [] M1
      = some ([("type", e.type), ("payload", e.payload),
               ("request_id", e.request_id), ("client_id", e.client_id)], []) := by
    rw [hm, hM1]
    rw [parseMembers_step (m + 3) [] "type" e.type M2 (by decide) ht]
    rw [hM2, skipWs_memberChars "payload" e.payload _ (by decide)]
    rw [parseMembers_step (m + 2) _ "payload" e.payload M3 (by decide) hp]
    rw [hM3, skipWs_memberChars "request_id" e.request_id _ (by decide)]
    rw [parseMembers_step (m + 1) _ "request_id" e.request_id M4 (by decide) hr]
    rw [hM4, skipWs_memberChars "client_id" e.client_id _ (by decide)]
    rw [parseMembers_close m _ "client_id" e.client_id [] (by decide) hcid]
    simp
  exact parseJsonObject_step M1 _ (hM1.trans hcons1)
    [("type", e.type), ("payload", e.payload),
     ("request_id", e.request_id), ("client_id", e.client_id)] [] hmembers (by rfl)

/-- Round trip of the envelope codec on escape-free field values: the
bytes `send_message` would produce for an envelope parse back to exactly
that envelope. -/
theorem parseEnvelope_roundtrip (e : Envelope)
    (ht : asciiSafeString e.type) (hp : asciiSafeString e.payload)
    (hr : asciiSafeString e.request_id) (hcid : asciiSafeString e.client_id) :
    parseEnvelope (utf8Encode (envelopeToJson e)) = some e := by
  unfold parseEnvelope
  rw [utf8_rt_ascii _ (envelopeToJson_ascii e ht hp hr hcid)]
  dsimp only
  rw [parseJsonObject_envelope e ht hp hr hcid]
  rfl

/-! Frame-level helper lemmas shared by the session theorems. -/

theorem length_frameEncode (p : List Byte) : (frameEncode p).length = 4 + p.length := by
  simp [frameEncode, packLE4]
  omega

theorem frameEncode_ne_nil (p : List Byte) : frameEncode p ≠ [] := by
  intro h
  have hl := congrArg List.length h
  rw [length_frameEncode] at hl
  simp at hl

/-- Decoding a single-chunk stream holding one well-formed frame. -/
theorem frameDecode_singleton (p : List Byte) (h : p.length < 2 ^ 32) :
    (frameDecode [frameEncode p]).1 = RecvResult.ok p := by
  refine frameDecode_complete p [frameEncode p] ?_ (by simp) h ?_
  · intro c hc
    rw [List.mem_singleton] at hc
    rw [hc]
    exact frameEncode_ne_nil p
  · show 4 ≤ (frameEncode p).length
    rw [length_frameEncode]
    omega

/-- A stream that delivers a complete header in its first read but runs
out before the declared body count decodes to the incomplete-message
report, got versus expected. -/
theorem frameDecode_incomplete (cs : ByteStream) (hdr body : List Byte)
    (hlive : LiveStream cs)
    (hflat : cs.flatten = hdr ++ body)
    (hhdr4 : hdr.length = 4)
    (hhdr : 4 ≤ (cs.headD []).length)
    (hshort : body.length < unpackLE4 hdr) :
    (frameDecode cs).1 = RecvResult.incompleteMessage body.length (unpackLE4 hdr) := by
  match cs with
  | [] => simp at hhdr
  | c :: rest =>
    simp only [List.headD_cons] at hhdr
    have htake4 : (c.take 4).length = 4 := by
      rw [List.length_take]; omega
    have hhdreq : c.take 4 = hdr := by
      have h1 : (c :: rest).flatten.take 4 = c.take 4 := by
        simp only [List.flatten_cons]
        rw [List.take_append_of_le_length hhdr]
      have h2 : (hdr ++ body).take 4 = hdr := List.take_left' hhdr4
      rw [← h1, hflat, h2]
    have hbody : ((c :: rest).flatten).drop 4 = body := by
      rw [hflat]
      exact List.drop_left' hhdr4
    unfold frameDecode
    simp only [recv]
    rw [if_neg (by rw [htake4]; exact fun hx => absurd rfl hx)]
    rw [hhdreq]
    have hflat1 : (if (c.drop 4).isEmpty then rest else c.drop 4 :: rest).flatten
        = body := by
      by_cases hd : (c.drop 4).isEmpty
      · have hnil : c.drop 4 = [] := by
          cases hcc : c.drop 4 with
          | nil => rfl
          | cons a l => rw [hcc] at hd; simp [List.isEmpty] at hd
        rw [if_pos hd, ← hbody]
        simp only [List.flatten_cons]
        rw [List.drop_append_of_le_length hhdr, hnil, List.nil_append]
      · rw [if_neg hd, ← hbody]
        simp only [List.flatten_cons]
        rw [List.drop_append_of_le_length hhdr]
    have hlive1 : LiveStream (if (c.drop 4).isEmpty then rest else c.drop 4 :: rest) := by
      intro x hx
      by_cases hd : (c.drop 4).isEmpty
      · rw [if_pos hd] at hx
        exact hlive x (List.mem_cons_of_mem c hx)
      · rw [if_neg hd] at hx
        rcases List.mem_cons.mp hx with h | h
        · subst h
          cases hcc : c.drop 4 with
          | nil => rw [hcc] at hd; simp [List.isEmpty] at hd
          | cons a l => simp [hcc]
        · exact hlive x (List.mem_cons_of_mem c h)
    have hloop : (recvBody (unpackLE4 hdr) (unpackLE4 hdr) []
        (if (c.drop 4).isEmpty then rest else c.drop 4 :: rest)).1 = body := by
      rw [recvBody_exhaust (unpackLE4 hdr) (unpackLE4 hdr) [] _ hlive1
        (by rw [hflat1]; simpa using hshort) (by rw [hflat1]; exact hshort)]
      rw [hflat1, List.nil_append]
    simp only [hloop]
    rw [if_pos (by omega)]

/-! Session helper lemmas. -/

theorem sendOnce_input (conn : Conn) (bs : List Byte) :
    (sendOnce conn bs).2.input = conn.input := by
  unfold sendOnce
  cases conn.sendSched with
  | nil => rfl
  | cons o rest => cases o <;> rfl

theorem sendOnce_nil (conn : Conn) (bs : List Byte) (h : conn.sendSched = []) :
    sendOnce conn bs = (true, { conn with written := conn.written ++ bs }) := by
  unfold sendOnce
  rw [h]

theorem sendOnce_fail (conn : Conn) (bs : List Byte) (rest : List SendOutcome)
    (h : conn.sendSched = SendOutcome.failed :: rest) :
    sendOnce conn bs = (false, { conn with sendSched := rest }) := by
  unfold sendOnce
  rw [h]

theorem sendOnce_accepted (conn : Conn) (bs : List Byte) (n : Nat)
    (rest : List SendOutcome) (h : conn.sendSched = SendOutcome.accepted n :: rest) :
    sendOnce conn bs
      = (true, { conn with sendSched := rest, written := conn.written ++ bs.take n }) := by
  unfold sendOnce
  rw [h]

/-- What `receive_message` returns, as a function of the frame decoded
from the connection's input: the parsed body on success, `none` on any
framing failure. -/
theorem receive_message_result (c : PhantomVaultIPCClient) (conn : Conn)
    (hc : c.socket = some conn) :
    (receive_message c).1
      = (match (frameDecode conn.input).1 with
          | RecvResult.ok body => parseEnvelope body
          | _ => none) := by
  simp only [receive_message, hc]
  cases hfd : (frameDecode conn.input).1 <;> rfl

/-- `receive_message` never touches the write side of the connection. -/
theorem receive_message_conn (c : PhantomVaultIPCClient) (conn : Conn)
    (hc : c.socket = some conn) :
    ∃ conn', (receive_message c).2.socket = some conn'
      ∧ conn'.written = conn.written ∧ conn'.sendSched = conn.sendSched := by
  simp only [receive_message, hc]
  cases hfd : (frameDecode conn.input).1 <;> exact ⟨_, rfl, rfl, rfl⟩

/-- On a fully accepting connection, `send_message` writes the length
header and then the body, and then blocks in `receive_message`. -/
theorem send_message_nil_sched (c : PhantomVaultIPCClient) (conn : Conn)
    (nowMs : Nat) (t p r : String)
    (hc : c.socket = some conn) (hs : conn.sendSched = [])
    (hlen : (utf8Encode (envelopeToJson (builtMessage c nowMs t p r))).length < 2 ^ 32) :
    send_message c nowMs t p r
      = receive_message { c with socket := some { conn with
          written := conn.written
            ++ packLE4 (utf8Encode (envelopeToJson (builtMessage c nowMs t p r))).length
            ++ utf8Encode (envelopeToJson (builtMessage c nowMs t p r)) } } := by
  obtain ⟨inp, sched, w⟩ := conn
  have hs' : sched = [] := hs
  subst hs'
  simp only [send_message, hc]
  rw [if_pos hlen]
  rfl

/-! Inversion lemmas for `send_message`, shared by the session claims. -/

/-- A successful `send_message` can only have come from a complete frame
on the input whose body parsed as the returned envelope. -/
theorem send_message_success_inv (c : PhantomVaultIPCClient) (conn : Conn)
    (nowMs : Nat) (t p r : String) (e : Envelope)
    (hc : c.socket = some conn)
    (h : (send_message c nowMs t p r).1 = some e) :
    ∃ body, (frameDecode conn.input).1 = RecvResult.ok body
      ∧ parseEnvelope body = some e := by
  obtain ⟨inp, sched, w⟩ := conn
  have hstep : ∀ (R : Conn), R.input = inp →
      (receive_message { c with socket := some R }).1 = some e →
      ∃ body, (frameDecode inp).1 = RecvResult.ok body
        ∧ parseEnvelope body = some e := by
    intro R hR h'
    rw [receive_message_result _ R rfl, hR] at h'
    cases hfd : (frameDecode inp).1 <;> rw [hfd] at h'
    · exact ⟨_, rfl, h'⟩
    · exact Option.noConfusion h'
    · exact Option.noConfusion h'
  simp only [send_message, hc] at h
  by_cases hlen :
      (utf8Encode (envelopeToJson (builtMessage c nowMs t p r))).length < 2 ^ 32
  · rw [if_pos hlen] at h
    match sched with
    | [] => exact hstep _ rfl h
    | SendOutcome.failed :: rest => exact Option.noConfusion h
    | SendOutcome.accepted n :: [] => exact hstep _ rfl h
    | SendOutcome.accepted n :: SendOutcome.accepted m :: rest => exact hstep _ rfl h
    | SendOutcome.accepted n :: SendOutcome.failed :: rest => exact Option.noConfusion h
  · rw [if_neg hlen] at h
    exact Option.noConfusion h

/-- A raised error on the first `send` (the length header) is caught and
surfaces as `none`. -/
theorem send_message_header_fail (c : PhantomVaultIPCClient) (conn : Conn)
    (nowMs : Nat) (t p r : String) (rest : List SendOutcome)
    (hc : c.socket = some conn)
    (hs : conn.sendSched = SendOutcome.failed :: rest) :
    (send_message c nowMs t p r).1 = none := by
  obtain ⟨inp, sched, w⟩ := conn
  have hs' : sched = SendOutcome.failed :: rest := hs
  subst hs'
  simp only [send_message, hc]
  by_cases hlen :
      (utf8Encode (envelopeToJson (builtMessage c nowMs t p r))).length < 2 ^ 32
  · rw [if_pos hlen]
    rfl
  · rw [if_neg hlen]

/-- A raised error on the second `send` (the body) is caught and
surfaces as `none`. -/
theorem send_message_body_fail (c : PhantomVaultIPCClient) (conn : Conn)
    (nowMs : Nat) (t p r : String) (n : Nat) (rest : List SendOutcome)
    (hc : c.socket = some conn)
    (hs : conn.sendSched = SendOutcome.accepted n :: SendOutcome.failed :: rest) :
    (send_message c nowMs t p r).1 = none := by
  obtain ⟨inp, sched, w⟩ := conn
  have hs' : sched = SendOutcome.accepted n :: SendOutcome.failed :: rest := hs
  subst hs'
  simp only [send_message, hc]
  by_cases hlen :
      (utf8Encode (envelopeToJson (builtMessage c nowMs t p r))).length < 2 ^ 32
  · rw [if_pos hlen]
    rfl
  · rw [if_neg hlen]

/-! The claims. -/

/-- C1 (amended).  Framing round trip: decoding the frame produced for a
payload of representable length (below 2^32 bytes) returns exactly that
payload for every chunking of the stream whose first read yields the
whole 4-byte header; the body may arrive in arbitrarily small chunks.
(The header itself is read by a single `recv(4)` and is not reassembled
across reads, which is why the first-read condition is needed — see the
counterexample.) -/
theorem framing_round_trip (P : List Byte) (cs : ByteStream)
    (hlive : LiveStream cs)
    (hflat : cs.flatten = frameEncode P)
    (hlen : P.length < 2 ^ 32)
    (hhdr : 4 ≤ (cs.headD []).length) :
    (frameDecode cs).1 = RecvResult.ok P :=
  frameDecode_complete P cs hlive hflat hlen hhdr

/-- C1 witness: a two-byte payload whose frame arrives in two chunks,
the body split across both. -/
theorem framing_round_trip_witness :
    (frameDecode [[2, 0, 0, 0, 7], [8]]).1 = RecvResult.ok [7, 8] :=
  framing_round_trip [7, 8] [[2, 0, 0, 0, 7], [8]]
    (by decide) (by decide) (by decide) (by decide)

/-- C1 counterexample: the frame of the empty payload delivered one byte
per read is not decoded back to the empty payload — the single `recv(4)`
returns one byte, the header check fails, and decoding gives up even
though the remaining chunks are still to come. -/
theorem framing_round_trip_counterexample :
    List.flatten [[0], [0], [0], [0]] = frameEncode []
      ∧ LiveStream [[0], [0], [0], [0]]
      ∧ (frameDecode [[0], [0], [0], [0]]).1 ≠ RecvResult.ok [] := by
  refine ⟨by decide, by decide, by decide⟩

/-- C2 (amended).  Early close detection: when the first read yields the
complete 4-byte header declaring length `L` and the stream then ends
before `L` body bytes arrive, the decoder reports the incomplete-message
failure with bytes obtained versus expected; and — unconditionally — a
successful decode always returns exactly as many bytes as the header
declared, never a silent short result.  (If the header itself arrives
split across reads, the decoder instead fails with the header-truncation
error — see the counterexample.) -/
theorem early_close_detection :
    (∀ (cs : ByteStream) (hdr body : List Byte),
        LiveStream cs → cs.flatten = hdr ++ body → hdr.length = 4 →
        4 ≤ (cs.headD []).length → body.length < unpackLE4 hdr →
        (frameDecode cs).1 = RecvResult.incompleteMessage body.length (unpackLE4 hdr))
      ∧ (∀ (s : ByteStream) (p : List Byte),
          (frameDecode s).1 = RecvResult.ok p → p.length = unpackLE4 (recv 4 s).1) :=
  ⟨frameDecode_incomplete, frameDecode_ok_length⟩

/-- C2 witness: a header declaring five body bytes followed by only two
and end of stream is reported as 2 of 5. -/
theorem early_close_detection_witness :
    (frameDecode [[5, 0, 0, 0, 1, 2]]).1 = RecvResult.incompleteMessage 2 5 := by
  have h := early_close_detection.1 [[5, 0, 0, 0, 1, 2]] [5, 0, 0, 0] [1, 2]
    (by decide) (by decide) (by decide) (by decide) (by decide)
  rw [show unpackLE4 [5, 0, 0, 0] = 5 from by decide] at h
  exact h

/-- C2 counterexample: a stream containing a complete header (declaring
5) and a short body (2 bytes), but with the header split after its first
byte: the decoder reports the header-truncation failure, not the
incomplete-message report the claim promises for every such stream. -/
theorem early_close_detection_counterexample :
    List.flatten [[5], [0, 0, 0, 1, 2]] = [5, 0, 0, 0] ++ [1, 2]
      ∧ unpackLE4 [5, 0, 0, 0] = 5
      ∧ LiveStream [[5], [0, 0, 0, 1, 2]]
      ∧ (frameDecode [[5], [0, 0, 0, 1, 2]]).1 = RecvResult.framingError
      ∧ (frameDecode [[5], [0, 0, 0, 1, 2]]).1 ≠ RecvResult.incompleteMessage 2 5 := by
  refine ⟨by decide, by decide, by decide, by decide, by decide⟩

/-- C3 (amended).  `send_message` issues exactly two single unchecked
`send` calls — header, then body — and ignores their return counts; only
when the connection accepts each call in full is the entire frame on the
wire by the time the reply is read (the read side never writes, so the
final written bytes are those present when the blocking read began).
There is no loop continuing on partial writes — see the
counterexample. -/
theorem full_write_before_read (c : PhantomVaultIPCClient) (conn : Conn)
    (nowMs : Nat) (t p r : String)
    (hc : c.socket = some conn) (hs : conn.sendSched = [])
    (hlen : (utf8Encode (envelopeToJson (builtMessage c nowMs t p r))).length < 2 ^ 32) :
    ∃ conn', (send_message c nowMs t p r).2.socket = some conn'
      ∧ conn'.written = conn.written
          ++ frameEncode (utf8Encode (envelopeToJson (builtMessage c nowMs t p r))) := by
  rw [send_message_nil_sched c conn nowMs t p r hc hs hlen]
  set C2 : Conn := { conn with written := (conn.written
      ++ packLE4 (utf8Encode (envelopeToJson (builtMessage c nowMs t p r))).length
      ++ utf8Encode (envelopeToJson (builtMessage c nowMs t p r))) } with hC2
  obtain ⟨conn', h1, h2, h3⟩ :=
    receive_message_conn { c with socket := some C2 } C2 rfl
  refine ⟨conn', h1, ?_⟩
  rw [h2, hC2]
  show conn.written ++ packLE4 _ ++ _ = _
  unfold frameEncode
  rw [List.append_assoc]

/-- C3 witness: on a fully accepting connection the whole frame is
written. -/
theorem full_write_before_read_witness :
    ∃ conn', (send_message okClient 1000 "PING" "ping" "").2.socket = some conn'
      ∧ conn'.written = okConn.written
          ++ frameEncode (utf8Encode (envelopeToJson
              (builtMessage okClient 1000 "PING" "ping" ""))) :=
  full_write_before_read okClient okConn 1000 "PING" "ping" "" rfl rfl (by decide)

/-- C3 counterexample: a connection that accepts only one byte of each
`send`.  Only two bytes of the frame ever reach the wire, yet the call
proceeds to the read and happily returns the decoded reply — so the
claim's full-write-loop guarantee is false of the code. -/
theorem full_write_before_read_counterexample :
    (send_message shortWriteClient 0 "PING" "ping" "x").1 = some pongEnvelope
      ∧ ((send_message shortWriteClient 0 "PING" "ping" "x").2.socket.map
          fun conn => conn.written.length) = some 2
      ∧ ((send_message shortWriteClient 0 "PING" "ping" "x").2.socket.map
          fun conn => conn.written)
        ≠ some (frameEncode (utf8Encode (envelopeToJson
            (builtMessage shortWriteClient 0 "PING" "ping" "x")))) := by
  refine ⟨by decide, by decide, by decide⟩

/-- C4.  No request/response correlation: on a connected session whose
stream holds one well-formed reply envelope `e`, `send_message` returns
exactly `e` — whatever `e.request_id` is, and with no hypothesis
relating it to the request identifier that was sent.  (Stated for
envelopes whose fields are escape-free printable ASCII; the request
identifier ranges over all such strings on both sides.) -/
theorem no_request_response_correlation (c : PhantomVaultIPCClient) (conn : Conn)
    (nowMs : Nat) (t p r : String) (e : Envelope)
    (hc : c.socket = some conn) (hs : conn.sendSched = [])
    (hin : conn.input = [frameEncode (utf8Encode (envelopeToJson e))])
    (ht : asciiSafeString e.type) (hp : asciiSafeString e.payload)
    (hr : asciiSafeString e.request_id) (hcid : asciiSafeString e.client_id)
    (hrlen : (utf8Encode (envelopeToJson e)).length < 2 ^ 32)
    (hslen : (utf8Encode (envelopeToJson (builtMessage c nowMs t p r))).length < 2 ^ 32) :
    (send_message c nowMs t p r).1 = some e := by
  rw [send_message_nil_sched c conn nowMs t p r hc hs hslen]
  rw [receive_message_result _ _ rfl]
  show (match (frameDecode conn.input).1 with
      | RecvResult.ok body => parseEnvelope body
      | _ => none) = some e
  rw [hin, frameDecode_singleton _ hrlen]
  exact parseEnvelope_roundtrip e ht hp hr hcid

/-- C4 witness: the reply's `srv_reply` identifier does not match the
sent `cli_req`, and the reply is returned regardless. -/
theorem no_request_response_correlation_witness :
    (send_message okClient 1000 "PING" "ping" "cli_req").1 = some pongEnvelope
      ∧ (builtMessage okClient 1000 "PING" "ping" "cli_req").request_id
          ≠ pongEnvelope.request_id :=
  ⟨no_request_response_correlation okClient okConn 1000 "PING" "ping" "cli_req"
      pongEnvelope rfl rfl rfl (by decide) (by decide) (by decide) (by decide)
      (by decide) (by decide),
    by decide⟩

/-- C5 (amended).  Generated request identifiers are the wall clock in
milliseconds rendered after `req_`, so two omitted-identifier calls get
distinct identifiers exactly when their millisecond timestamps differ;
two calls within the same millisecond collide — see the
counterexample. -/
theorem generated_request_id_distinct (c1 c2 : PhantomVaultIPCClient)
    (t1 t2 : Nat) (ty1 p1 ty2 p2 : String) (h : t1 ≠ t2) :
    (builtMessage c1 t1 ty1 p1 "").request_id
      ≠ (builtMessage c2 t2 ty2 p2 "").request_id := by
  simp only [builtMessage, if_pos rfl]
  intro he
  exact h (genRequestId_inj he)

/-- C5 witness: one millisecond apart, the identifiers differ. -/
theorem generated_request_id_distinct_witness :
    (builtMessage okClient 1000 "PING" "ping" "").request_id
      ≠ (builtMessage okClient 1001 "GET_PROFILES" "" "").request_id :=
  generated_request_id_distinct okClient okClient 1000 1001
    "PING" "ping" "GET_PROFILES" "" (by decide)

/-- C5 counterexample: two distinct calls (different type and payload)
in the same millisecond generate the same `req_1000` identifier, so the
claimed pairwise distinctness is false of the code. -/
theorem generated_request_id_distinct_counterexample :
    (builtMessage okClient 1000 "PING" "ping" "").request_id
        = (builtMessage okClient 1000 "GET_PROFILES" "" "").request_id
      ∧ (builtMessage okClient 1000 "PING" "ping" "").request_id = "req_1000" := by
  refine ⟨by decide, by decide⟩

/-- C6.  Header truncation: the decoder asks for exactly the 4-byte
header width, and on any stream holding fewer than 4 bytes in total it
fails with the header-truncation error rather than returning a decoded
frame. -/
theorem header_truncation_framing_error (cs : ByteStream)
    (h : cs.flatten.length < 4) :
    (frameDecode cs).1 = RecvResult.framingError := by
  match cs with
  | [] => rfl
  | c :: rest =>
    have hc : c.length ≤ (c :: rest).flatten.length := by
      simp [List.flatten_cons]
    have hlen : (c.take 4).length < 4 := by
      rw [List.length_take]
      omega
    unfold frameDecode
    simp only [recv]
    rw [if_pos (by omega)]

/-- C6 witness: a two-byte stream fails the header read. -/
theorem header_truncation_framing_error_witness :
    (frameDecode [[1, 2]]).1 = RecvResult.framingError :=
  header_truncation_framing_error [[1, 2]] (by decide)

/-- C7.  Error containment: on a connected session every outcome of
`send_message` is either `none` or an envelope obtained by fully
decoding and parsing the next frame of the stream — there is no third
possibility, and in particular a failed header write, a failed body
write, a truncated response header, an incomplete response body, and an
unparseable response body each yield `none`.  Callers distinguish
success from failure solely by the `none` check. -/
theorem error_containment (c : PhantomVaultIPCClient) (conn : Conn)
    (nowMs : Nat) (t p r : String)
    (hc : c.socket = some conn) :
    ((send_message c nowMs t p r).1 = none
      ∨ ∃ body e, (frameDecode conn.input).1 = RecvResult.ok body
          ∧ parseEnvelope body = some e
          ∧ (send_message c nowMs t p r).1 = some e)
    ∧ (∀ rest, conn.sendSched = SendOutcome.failed :: rest →
        (send_message c nowMs t p r).1 = none)
    ∧ (∀ n rest, conn.sendSched = SendOutcome.accepted n :: SendOutcome.failed :: rest →
        (send_message c nowMs t p r).1 = none)
    ∧ ((frameDecode conn.input).1 = RecvResult.framingError →
        (send_message c nowMs t p r).1 = none)
    ∧ (∀ got expected,
        (frameDecode conn.input).1 = RecvResult.incompleteMessage got expected →
        (send_message c nowMs t p r).1 = none)
    ∧ (∀ body, (frameDecode conn.input).1 = RecvResult.ok body →
        parseEnvelope body = none → (send_message c nowMs t p r).1 = none) := by
  refine ⟨?_, ?_, ?_, ?_, ?_, ?_⟩
  · cases hres : (send_message c nowMs t p r).1 with
    | none => exact Or.inl rfl
    | some e =>
      obtain ⟨body, hfd, hpe⟩ := send_message_success_inv c conn nowMs t p r e hc hres
      exact Or.inr ⟨body, e, hfd, hpe, rfl⟩
  · intro rest hs
    exact send_message_header_fail c conn nowMs t p r rest hc hs
  · intro n rest hs
    exact send_message_body_fail c conn nowMs t p r n rest hc hs
  · intro hfd
    cases hres : (send_message c nowMs t p r).1 with
    | none => rfl
    | some e =>
      obtain ⟨body, hfd2, _⟩ := send_message_success_inv c conn nowMs t p r e hc hres
      rw [hfd] at hfd2
      exact RecvResult.noConfusion hfd2
  · intro got expected hfd
    cases hres : (send_message c nowMs t p r).1 with
    | none => rfl
    | some e =>
      obtain ⟨body, hfd2, _⟩ := send_message_success_inv c conn nowMs t p r e hc hres
      rw [hfd] at hfd2
      exact RecvResult.noConfusion hfd2
  · intro body hfd hpe
    cases hres : (send_message c nowMs t p r).1 with
    | none => rfl
    | some e =>
      obtain ⟨body2, hfd2, hpe2⟩ := send_message_success_inv c conn nowMs t p r e hc hres
      rw [hfd] at hfd2
      rw [← RecvResult.ok.inj hfd2] at hpe2
      rw [hpe] at hpe2
      exact Option.noConfusion hpe2

/-- C7 witness: instantiating the containment conjunction on the sample
connected client. -/
theorem error_containment_witness :
    ((send_message okClient 1000 "PING" "ping" "").1 = none
      ∨ ∃ body e, (frameDecode okConn.input).1 = RecvResult.ok body
          ∧ parseEnvelope body = some e
          ∧ (send_message okClient 1000 "PING" "ping" "").1 = some e)
    ∧ (∀ rest, okConn.sendSched = SendOutcome.failed :: rest →
        (send_message okClient 1000 "PING" "ping" "").1 = none)
    ∧ (∀ n rest, okConn.sendSched = SendOutcome.accepted n :: SendOutcome.failed :: rest →
        (send_message okClient 1000 "PING" "ping" "").1 = none)
    ∧ ((frameDecode okConn.input).1 = RecvResult.framingError →
        (send_message okClient 1000 "PING" "ping" "").1 = none)
    ∧ (∀ got expected,
        (frameDecode okConn.input).1 = RecvResult.incompleteMessage got expected →
        (send_message okClient 1000 "PING" "ping" "").1 = none)
    ∧ (∀ body, (frameDecode okConn.input).1 = RecvResult.ok body →
        parseEnvelope body = none → (send_message okClient 1000 "PING" "ping" "").1 = none) :=
  error_containment okClient okConn 1000 "PING" "ping" "" rfl

/-- C8.  Length accuracy: the frame `send_message` emits consists of the
4-byte header followed by exactly the UTF-8 bytes of the JSON envelope,
and the header's decoded value equals that body's byte count — for every
payload string, multi-byte characters included (they are escaped into
the ASCII JSON text, whose byte count the header reflects exactly).
Stated for the frames actually emitted, i.e. bodies below 2^32 bytes;
larger ones make `struct.pack` raise and nothing is sent. -/
theorem length_accuracy (c : PhantomVaultIPCClient) (conn : Conn)
    (nowMs : Nat) (t p r : String)
    (hc : c.socket = some conn) (hs : conn.sendSched = [])
    (hlen : (utf8Encode (envelopeToJson (builtMessage c nowMs t p r))).length < 2 ^ 32) :
    ∃ conn', (send_message c nowMs t p r).2.socket = some conn'
      ∧ conn'.written = conn.written
          ++ packLE4 (utf8Encode (envelopeToJson (builtMessage c nowMs t p r))).length
          ++ utf8Encode (envelopeToJson (builtMessage c nowMs t p r))
      ∧ unpackLE4 (packLE4 (utf8Encode (envelopeToJson (builtMessage c nowMs t p r))).length)
          = (utf8Encode (envelopeToJson (builtMessage c nowMs t p r))).length := by
  rw [send_message_nil_sched c conn nowMs t p r hc hs hlen]
  set C2 : Conn := { conn with written := (conn.written
      ++ packLE4 (utf8Encode (envelopeToJson (builtMessage c nowMs t p r))).length
      ++ utf8Encode (envelopeToJson (builtMessage c nowMs t p r))) } with hC2
  obtain ⟨conn', h1, h2, h3⟩ :=
    receive_message_conn { c with socket := some C2 } C2 rfl
  refine ⟨conn', h1, ?_, unpackLE4_packLE4 _ hlen⟩
  rw [h2, hC2]

/-- C8 witness: a payload with a multi-byte character; the emitted
header value equals the body's exact byte count. -/
theorem length_accuracy_witness :
    ∃ conn', (send_message okClient 1000 "STORE" "é" "").2.socket = some conn'
      ∧ conn'.written = okConn.written
          ++ packLE4 (utf8Encode (envelopeToJson
              (builtMessage okClient 1000 "STORE" "é" ""))).length
          ++ utf8Encode (envelopeToJson (builtMessage okClient 1000 "STORE" "é" ""))
      ∧ unpackLE4 (packLE4 (utf8Encode (envelopeToJson
            (builtMessage okClient 1000 "STORE" "é" ""))).length)
          = (utf8Encode (envelopeToJson (builtMessage okClient 1000 "STORE" "é" ""))).length :=
  length_accuracy okClient okConn 1000 "STORE" "é" "" rfl rfl (by decide)

/-- C9.  Disconnect idempotence: `disconnect` leaves the socket closed
and the other fields untouched, calling it on an already-disconnected
client is a no-op, and running it twice is the same as running it
once. -/
theorem disconnect_idempotent (c : PhantomVaultIPCClient) :
    disconnect (disconnect c) = disconnect c
      ∧ (disconnect c).socket = none
      ∧ (disconnect c).socket_path = c.socket_path
      ∧ (disconnect c).client_id = c.client_id
      ∧ (c.socket = none → disconnect c = c) := by
  match hs : c.socket with
  | none => simp [disconnect, hs]
  | some conn => simp [disconnect, hs]

/-- C9 witness: the conjunction at a freshly constructed client. -/
theorem disconnect_idempotent_witness :
    disconnect (disconnect (mkClient "/tmp/phantom-vault-0.sock" 0))
        = disconnect (mkClient "/tmp/phantom-vault-0.sock" 0)
      ∧ (disconnect (mkClient "/tmp/phantom-vault-0.sock" 0)).socket = none
      ∧ (disconnect (mkClient "/tmp/phantom-vault-0.sock" 0)).socket_path
          = (mkClient "/tmp/phantom-vault-0.sock" 0).socket_path
      ∧ (disconnect (mkClient "/tmp/phantom-vault-0.sock" 0)).client_id
          = (mkClient "/tmp/phantom-vault-0.sock" 0).client_id
      ∧ ((mkClient "/tmp/phantom-vault-0.sock" 0).socket = none →
          disconnect (mkClient "/tmp/phantom-vault-0.sock" 0)
            = mkClient "/tmp/phantom-vault-0.sock" 0) :=
  disconnect_idempotent (mkClient "/tmp/phantom-vault-0.sock" 0)

/-- C10.  Disconnected-request atomicity: without a socket, both
`send_message` and `receive_message` return `none` and hand back the
client completely unchanged — no bytes are written or read and no field
of the session state moves. -/
theorem disconnected_request_noop (c : PhantomVaultIPCClient)
    (nowMs : Nat) (t p r : String) (h : c.socket = none) :
    send_message c nowMs t p r = (none, c) ∧ receive_message c = (none, c) := by
  constructor
  · simp [send_message, h]
  · simp [receive_message, h]

/-- C10 witness: a freshly constructed, never-connected client. -/
theorem disconnected_request_noop_witness :
    send_message (mkClient "/tmp/phantom-vault-0.sock" 5) 1000 "PING" "ping" ""
        = (none, mkClient "/tmp/phantom-vault-0.sock" 5)
      ∧ receive_message (mkClient "/tmp/phantom-vault-0.sock" 5)
          = (none, mkClient "/tmp/phantom-vault-0.sock" 5) :=
  disconnected_request_noop (mkClient "/tmp/phantom-vault-0.sock" 5)
    1000 "PING" "ping" "" rfl

end PhantomVault
